import Mathlib

/-!
Shallow embedding of `corelib/src/EpipolarGeometry.cpp` (rtabmap).

Conventions of the embedding:
* machine `double` values are modelled as exact rationals `ℚ`;
* the external dense-linear-algebra primitives the source delegates to
  (`cv::SVD` / `cvSVD`, `cv::solve(.., DECOMP_SVD)`, `cv::triangulatePoints`,
  `cv::findFundamentalMat`) are injected as explicit function arguments,
  mirroring the module's declared dependency boundary; everything the source
  computes itself (guards, branch structure, loops, entry-wise arithmetic)
  is translated literally;
* `cv::Mat::inv()` on an invertible matrix is modelled by the unique
  mathematical inverse, realised computably as `det⁻¹ • adjugate`;
* keypoint containers (`std::multimap<int, cv::KeyPoint>`) are modelled as
  association lists in iteration order (a multimap iterates keys in
  ascending order, which is recorded as a sortedness hypothesis where a
  claim needs it).
-/

/-- A 2D image keypoint (the only fields `EpipolarGeometry` reads are the
coordinates; descriptors etc. are carried opaquely by OpenCV). -/
structure KeyPoint where
  x : ℚ
  y : ℚ
deriving DecidableEq, Repr, Inhabited

/-- `std::multimap<int, cv::KeyPoint>` in iteration order. -/
abbrev MultiMap := List (Int × KeyPoint)

/-- A correspondence `(label, keypoint-in-A, keypoint-in-B)` as stored in the
`pairs` output list of the matchers. -/
abbrev PairT := Int × KeyPoint × KeyPoint

/-- `uUniqueKeys`: the distinct keys of a multimap, in iteration order
(for a sorted multimap: ascending order). -/
def uUniqueKeys (m : MultiMap) : List Int :=
  (m.map Prod.fst).dedup

/-- `uValues(m, key)`: all values bound to `key`, in iteration order. -/
def uValues (m : MultiMap) (key : Int) : List KeyPoint :=
  (m.filter (fun p => p.1 == key)).map Prod.snd

/-- The body of the `EpipolarGeometry::findPairsUnique` loop, recursing over
the unique keys of `wordsA`: a key with exactly one keypoint on each side
emits one correspondence and counts 1; a key with more than one keypoint on
both sides emits nothing and counts `min` of the multiplicities; any other
key contributes nothing. -/
def findPairsUniqueAux (wordsA wordsB : MultiMap) : List Int → Nat × List PairT
  | [] => (0, [])
  | k :: ks =>
      let ptsA := uValues wordsA k
      let ptsB := uValues wordsB k
      let rest := findPairsUniqueAux wordsA wordsB ks
      if ptsA.length = 1 ∧ ptsB.length = 1 then
        (rest.1 + 1, (k, ptsA.headI, ptsB.headI) :: rest.2)
      else if 1 < ptsA.length ∧ 1 < ptsB.length then
        (rest.1 + min ptsA.length ptsB.length, rest.2)
      else
        rest

/-- `EpipolarGeometry::findPairsUnique`: returns `(realPairsCount, pairs)`. -/
def findPairsUnique (wordsA wordsB : MultiMap) : Nat × List PairT :=
  findPairsUniqueAux wordsA wordsB (uUniqueKeys wordsA)

/-- The body of the `EpipolarGeometry::findPairsAll` loop: every key of
`wordsA` contributes `min` of the multiplicities to the count and the full
cross product of its A-side and B-side keypoints to the pair list. -/
def findPairsAllAux (wordsA wordsB : MultiMap) : List Int → Nat × List PairT
  | [] => (0, [])
  | k :: ks =>
      let ptsA := uValues wordsA k
      let ptsB := uValues wordsB k
      let rest := findPairsAllAux wordsA wordsB ks
      (rest.1 + min ptsA.length ptsB.length,
        (ptsA.flatMap fun a => ptsB.map fun b => (k, a, b)) ++ rest.2)

/-- `EpipolarGeometry::findPairsAll`: returns `(realPairsCount, pairs)`. -/
def findPairsAll (wordsA wordsB : MultiMap) : Nat × List PairT :=
  findPairsAllAux wordsA wordsB (uUniqueKeys wordsA)

/-- Per-key contribution of `findPairsUnique` to `realPairsCount`
(the branch structure of the loop body, restricted to the count). -/
def uContrib (wordsA wordsB : MultiMap) (k : Int) : Nat :=
  if (uValues wordsA k).length = 1 ∧ (uValues wordsB k).length = 1 then 1
  else if 1 < (uValues wordsA k).length ∧ 1 < (uValues wordsB k).length then
    min (uValues wordsA k).length (uValues wordsB k).length
  else 0

/-- A view signature: the facade only reads the id and the word multimap. -/
structure Sig where
  id : Int
  words : MultiMap

/-- `uSum` over the inlier mask (a `std::vector<uchar>`). -/
def uSum (status : List Nat) : Nat := status.sum

/-- `EpipolarGeometry::findFFromWords`, restricted to what `check` consumes:
the robust estimation itself is `cv::findFundamentalMat`, injected as
`estimator`, which produces the inlier mask for the given correspondence
sequence.  (The returned `F` matrix is not inspected by `check`.) -/
def findFFromWords (estimator : List PairT → List Nat) (pairs : List PairT) :
    List Nat :=
  estimator pairs

/-- `EpipolarGeometry::check`: null-guard, unique-pairs matching, the
match-count short-circuit, and the inlier-count decision. -/
def check (estimator : List PairT → List Nat)
    (matchCountMinAccepted : Int) (ssA ssB : Option Sig) : Bool :=
  match ssA, ssB with
  | some a, some b =>
      let pairs := (findPairsUnique a.words b.words).2
      if (pairs.length : Int) < matchCountMinAccepted then
        false
      else
        let status := findFFromWords estimator pairs
        let inliers : Int := uSum status
        if inliers < matchCountMinAccepted then false else true
  | _, _ => false

section MatcherLemmas

/-- The count returned by the unique-pairs loop is the sum of the per-key
contributions. -/
theorem findPairsUniqueAux_count (A B : MultiMap) (ks : List Int) :
    (findPairsUniqueAux A B ks).1 = (ks.map (uContrib A B)).sum := by
  induction ks with
  | nil => rfl
  | cons k ks ih =>
      simp only [findPairsUniqueAux, uContrib, List.map_cons, List.sum_cons]
      split
      · simp [ih]; omega
      · split
        · simp [ih]; omega
        · simp [ih]

/-- No pair whose label has multiplicity ≥ 2 on both sides is ever emitted. -/
theorem findPairsUniqueAux_filter_dup (A B : MultiMap) (l : Int)
    (h2a : 2 ≤ (uValues A l).length) (h2b : 2 ≤ (uValues B l).length)
    (ks : List Int) :
    ((findPairsUniqueAux A B ks).2.filter (fun p => p.1 == l)) = [] := by
  induction ks with
  | nil => rfl
  | cons k ks ih =>
      simp only [findPairsUniqueAux]
      split
      · next hone =>
          have hkl : k ≠ l := by
            intro hkl; subst hkl; omega
          simpa [List.filter_cons, hkl] using ih
      · split
        · exact ih
        · exact ih

/-- A label with multiplicity exactly 1 on both sides is emitted once per
occurrence in the key list. -/
theorem findPairsUniqueAux_filter_one (A B : MultiMap) (m : Int)
    (h1a : (uValues A m).length = 1) (h1b : (uValues B m).length = 1)
    (ks : List Int) :
    ((findPairsUniqueAux A B ks).2.filter (fun p => p.1 == m)).length =
      ks.count m := by
  induction ks with
  | nil => rfl
  | cons k ks ih =>
      simp only [findPairsUniqueAux]
      by_cases hkm : k = m
      · subst hkm
        split
        · next => simp [List.filter_cons, List.count_cons, ih]
        · next hno => exact absurd ⟨h1a, h1b⟩ hno
      · have hcnt : (k :: ks).count m = ks.count m := by
          simp [List.count_cons, hkm]
        rw [hcnt]
        split
        · simpa [List.filter_cons, hkm] using ih
        · split
          · exact ih
          · exact ih

/-- Labels of the unique-pairs output form a sublist of the processed keys. -/
theorem findPairsUniqueAux_labels_sublist (A B : MultiMap) (ks : List Int) :
    List.Sublist ((findPairsUniqueAux A B ks).2.map Prod.fst) ks := by
  induction ks with
  | nil => simp [findPairsUniqueAux]
  | cons k ks ih =>
      simp only [findPairsUniqueAux]
      split
      · simpa using List.Sublist.cons₂ k ih
      · split
        · exact ih.cons k
        · exact ih.cons k

end MatcherLemmas

/-- The multiplicity of a label equals the count of that key in the key list. -/
theorem uValues_length_eq_count (A : MultiMap) (k : Int) :
    (uValues A k).length = (A.map Prod.fst).count k := by
  simp only [uValues, List.count, List.countP_map, List.length_map,
    ← List.countP_eq_length_filter]
  rfl

/-- A label of positive multiplicity occurs among the unique keys. -/
theorem mem_uniqueKeys_of_mult_pos (A : MultiMap) (m : Int)
    (h : 0 < (uValues A m).length) : m ∈ uUniqueKeys A := by
  rw [uValues_length_eq_count] at h
  exact List.mem_dedup.mpr (List.count_pos_iff.mp h)

/-- C8: for any two word multimaps, a label occurring at least twice on both
sides is excluded from the emitted correspondences while still contributing
`min` of the two multiplicities to the returned pairable count (which
decomposes as the sum of per-label contributions), and a label occurring
exactly once on each side yields exactly one emitted correspondence and a
count contribution of one. -/
theorem findPairsUnique_duplicate_policy (A B : MultiMap) (l m : Int)
    (h2a : 2 ≤ (uValues A l).length) (h2b : 2 ≤ (uValues B l).length)
    (h1a : (uValues A m).length = 1) (h1b : (uValues B m).length = 1) :
    (findPairsUnique A B).1 = ((uUniqueKeys A).map (uContrib A B)).sum
    ∧ ((findPairsUnique A B).2.filter (fun p => p.1 == l)) = []
    ∧ uContrib A B l = min (uValues A l).length (uValues B l).length
    ∧ ((findPairsUnique A B).2.filter (fun p => p.1 == m)).length = 1
    ∧ uContrib A B m = 1 := by
  refine ⟨findPairsUniqueAux_count A B _,
    findPairsUniqueAux_filter_dup A B l h2a h2b _, ?_, ?_, ?_⟩
  · unfold uContrib
    split
    · next h => omega
    · split
      · rfl
      · next h => omega
  · rw [findPairsUnique, findPairsUniqueAux_filter_one A B m h1a h1b]
    exact List.count_eq_one_of_mem (List.nodup_dedup _)
      (mem_uniqueKeys_of_mult_pos A m (by omega))
  · unfold uContrib
    split
    · rfl
    · next h => exact absurd ⟨h1a, h1b⟩ h

/-- Concrete instance for `findPairsUnique_duplicate_policy`: label 5 is
duplicated on both sides (multiplicities 2 and 3), label 7 is unique on
both sides. -/
theorem findPairsUnique_duplicate_policy_witness :
    (2 ≤ (uValues [(5, ⟨1, 1⟩), (5, ⟨2, 2⟩), (7, ⟨3, 3⟩)] 5).length)
    ∧ (2 ≤ (uValues [(5, ⟨4, 4⟩), (5, ⟨5, 5⟩), (5, ⟨6, 6⟩), (7, ⟨7, 7⟩)] 5).length)
    ∧ (((findPairsUnique [(5, ⟨1, 1⟩), (5, ⟨2, 2⟩), (7, ⟨3, 3⟩)]
          [(5, ⟨4, 4⟩), (5, ⟨5, 5⟩), (5, ⟨6, 6⟩), (7, ⟨7, 7⟩)]).2.filter
            (fun p => p.1 == 5)) = [])
    ∧ uContrib [(5, ⟨1, 1⟩), (5, ⟨2, 2⟩), (7, ⟨3, 3⟩)]
        [(5, ⟨4, 4⟩), (5, ⟨5, 5⟩), (5, ⟨6, 6⟩), (7, ⟨7, 7⟩)] 5 = 2
    ∧ ((findPairsUnique [(5, ⟨1, 1⟩), (5, ⟨2, 2⟩), (7, ⟨3, 3⟩)]
          [(5, ⟨4, 4⟩), (5, ⟨5, 5⟩), (5, ⟨6, 6⟩), (7, ⟨7, 7⟩)]).2.filter
            (fun p => p.1 == 7)).length = 1 := by
  have h := findPairsUnique_duplicate_policy
    [(5, ⟨1, 1⟩), (5, ⟨2, 2⟩), (7, ⟨3, 3⟩)]
    [(5, ⟨4, 4⟩), (5, ⟨5, 5⟩), (5, ⟨6, 6⟩), (7, ⟨7, 7⟩)] 5 7
    (by simp [uValues]) (by simp [uValues]) (by simp [uValues]) (by simp [uValues])
  refine ⟨by simp [uValues], by simp [uValues], h.2.1, ?_, h.2.2.2.1⟩
  have := h.2.2.1
  simpa [uValues] using this

/-- With at most one keypoint per label on each side, the unique-pairs and
all-pairs loops compute the same result over any key list. -/
theorem findPairsAux_eq_of_nodup (A B : MultiMap)
    (hA : ∀ k, (uValues A k).length ≤ 1) (hB : ∀ k, (uValues B k).length ≤ 1)
    (ks : List Int) :
    findPairsUniqueAux A B ks = findPairsAllAux A B ks := by
  induction ks with
  | nil => rfl
  | cons k ks ih =>
      simp only [findPairsUniqueAux, findPairsAllAux]
      rcases hla : uValues A k with _ | ⟨a, ta⟩
      · simp [hla, ih]
      · have hta : ta = [] := by
          have := hA k
          rw [hla] at this
          simpa using this
        subst hta
        rcases hlb : uValues B k with _ | ⟨b, tb⟩
        · simp [hlb, ih]
        · have htb : tb = [] := by
            have := hB k
            rw [hlb] at this
            simpa using this
          subst htb
          simp [hla, hlb, ih, List.headI]

/-- C9: when no label is duplicated in either map, `findPairsUnique` and
`findPairsAll` return the same pairable count and the same correspondence
sequence, and (for a key-sorted multimap) the shared sequence lists its
labels in ascending order. -/
theorem findPairsUnique_eq_findPairsAll (A B : MultiMap)
    (hA : (A.map Prod.fst).Nodup) (hB : (B.map Prod.fst).Nodup)
    (hs : List.Sorted (· ≤ ·) (A.map Prod.fst)) :
    findPairsUnique A B = findPairsAll A B
    ∧ List.Sorted (· ≤ ·) ((findPairsUnique A B).2.map Prod.fst) := by
  constructor
  · exact findPairsAux_eq_of_nodup A B
      (fun k => by
        rw [uValues_length_eq_count]; exact List.nodup_iff_count_le_one.mp hA k)
      (fun k => by
        rw [uValues_length_eq_count]; exact List.nodup_iff_count_le_one.mp hB k)
      (uUniqueKeys A)
  · have hdedup : List.Sorted (· ≤ ·) (uUniqueKeys A) :=
      hs.sublist (List.dedup_sublist _)
    exact hdedup.sublist (findPairsUniqueAux_labels_sublist A B (uUniqueKeys A))

/-- Concrete instance for `findPairsUnique_eq_findPairsAll`: two sorted
duplicate-free maps sharing labels 1 and 3. -/
theorem findPairsUnique_eq_findPairsAll_witness :
    (([(1, (⟨0, 0⟩ : KeyPoint)), (2, ⟨1, 1⟩), (3, ⟨2, 2⟩)].map Prod.fst).Nodup)
    ∧ (([(1, (⟨5, 5⟩ : KeyPoint)), (3, ⟨6, 6⟩), (4, ⟨7, 7⟩)].map Prod.fst).Nodup)
    ∧ findPairsUnique [(1, ⟨0, 0⟩), (2, ⟨1, 1⟩), (3, ⟨2, 2⟩)]
        [(1, ⟨5, 5⟩), (3, ⟨6, 6⟩), (4, ⟨7, 7⟩)] =
      findPairsAll [(1, ⟨0, 0⟩), (2, ⟨1, 1⟩), (3, ⟨2, 2⟩)]
        [(1, ⟨5, 5⟩), (3, ⟨6, 6⟩), (4, ⟨7, 7⟩)]
    ∧ List.Sorted (· ≤ ·)
        ((findPairsUnique [(1, ⟨0, 0⟩), (2, ⟨1, 1⟩), (3, ⟨2, 2⟩)]
          [(1, ⟨5, 5⟩), (3, ⟨6, 6⟩), (4, ⟨7, 7⟩)]).2.map Prod.fst) := by
  have h := findPairsUnique_eq_findPairsAll
    [(1, ⟨0, 0⟩), (2, ⟨1, 1⟩), (3, ⟨2, 2⟩)]
    [(1, ⟨5, 5⟩), (3, ⟨6, 6⟩), (4, ⟨7, 7⟩)]
    (by simp) (by simp) (by simp [List.Sorted])
  exact ⟨by simp, by simp, h.1, h.2⟩

/-- C1: the verification facade fails fast on a null signature; below the
configured minimum match count it rejects without consulting the estimator
(the result is the same for any two estimators); otherwise it accepts
exactly when the inlier count — the sum of the estimator's mask — reaches
that same minimum. -/
theorem check_facade (estimator estimator' : List PairT → List Nat)
    (matchCountMinAccepted : Int) (a b : Sig) :
    check estimator matchCountMinAccepted none none = false
    ∧ check estimator matchCountMinAccepted (some a) none = false
    ∧ check estimator matchCountMinAccepted none (some b) = false
    ∧ ((((findPairsUnique a.words b.words).2.length : Int) <
          matchCountMinAccepted →
        check estimator matchCountMinAccepted (some a) (some b) = false
        ∧ check estimator matchCountMinAccepted (some a) (some b) =
            check estimator' matchCountMinAccepted (some a) (some b)))
    ∧ (matchCountMinAccepted ≤ ((findPairsUnique a.words b.words).2.length : Int) →
        (check estimator matchCountMinAccepted (some a) (some b) = true ↔
          matchCountMinAccepted ≤
            (uSum (findFFromWords estimator (findPairsUnique a.words b.words).2) : Int))) := by
  refine ⟨rfl, rfl, rfl, ?_, ?_⟩
  · intro hlt
    constructor <;> simp [check, hlt]
  · intro hge
    rw [check]
    rw [if_neg (not_lt.mpr hge)]
    show (if ((uSum (findFFromWords estimator (findPairsUnique a.words b.words).2) : Int) <
        matchCountMinAccepted) then false else true) = true ↔ _
    by_cases hin : ((uSum (findFFromWords estimator (findPairsUnique a.words b.words).2) : Int) <
        matchCountMinAccepted)
    · rw [if_pos hin]
      simp
      omega
    · rw [if_neg hin]
      simp
      omega

/-- Concrete instances for `check_facade`: a 3-match pair is rejected under
minimum 10 for any estimator, and accepted under minimum 2 exactly when the
estimator reports at least 2 inliers. -/
theorem check_facade_witness :
    (((findPairsUnique [(1, (⟨0, 0⟩ : KeyPoint)), (2, ⟨1, 1⟩), (3, ⟨2, 2⟩)]
        [(1, ⟨5, 5⟩), (2, ⟨6, 6⟩), (3, ⟨7, 7⟩)]).2.length : Int) < 10)
    ∧ check (fun prs => prs.map fun _ => 1) 10
        (some ⟨1, [(1, ⟨0, 0⟩), (2, ⟨1, 1⟩), (3, ⟨2, 2⟩)]⟩)
        (some ⟨2, [(1, ⟨5, 5⟩), (2, ⟨6, 6⟩), (3, ⟨7, 7⟩)]⟩) = false
    ∧ check (fun prs => prs.map fun _ => 1) 10
        (some ⟨1, [(1, ⟨0, 0⟩), (2, ⟨1, 1⟩), (3, ⟨2, 2⟩)]⟩)
        (some ⟨2, [(1, ⟨5, 5⟩), (2, ⟨6, 6⟩), (3, ⟨7, 7⟩)]⟩) =
      check (fun _ => []) 10
        (some ⟨1, [(1, ⟨0, 0⟩), (2, ⟨1, 1⟩), (3, ⟨2, 2⟩)]⟩)
        (some ⟨2, [(1, ⟨5, 5⟩), (2, ⟨6, 6⟩), (3, ⟨7, 7⟩)]⟩)
    ∧ (check (fun prs => prs.map fun _ => 1) 2
        (some ⟨1, [(1, ⟨0, 0⟩), (2, ⟨1, 1⟩), (3, ⟨2, 2⟩)]⟩)
        (some ⟨2, [(1, ⟨5, 5⟩), (2, ⟨6, 6⟩), (3, ⟨7, 7⟩)]⟩) = true ↔
        (2 : Int) ≤
          (uSum (findFFromWords (fun prs => prs.map fun _ => 1)
            (findPairsUnique [(1, ⟨0, 0⟩), (2, ⟨1, 1⟩), (3, ⟨2, 2⟩)]
              [(1, ⟨5, 5⟩), (2, ⟨6, 6⟩), (3, ⟨7, 7⟩)]).2) : Int)) := by
  have hlen : ((findPairsUnique [(1, (⟨0, 0⟩ : KeyPoint)), (2, ⟨1, 1⟩), (3, ⟨2, 2⟩)]
      [(1, ⟨5, 5⟩), (2, ⟨6, 6⟩), (3, ⟨7, 7⟩)]).2.length : Int) = 3 := by
    simp [findPairsUnique, uUniqueKeys, findPairsUniqueAux, uValues]
  have h1 := (check_facade (fun prs => prs.map fun _ => 1) (fun _ => []) 10
    ⟨1, [(1, ⟨0, 0⟩), (2, ⟨1, 1⟩), (3, ⟨2, 2⟩)]⟩
    ⟨2, [(1, ⟨5, 5⟩), (2, ⟨6, 6⟩), (3, ⟨7, 7⟩)]⟩).2.2.2.1 (by rw [hlen]; norm_num)
  have h2 := (check_facade (fun prs => prs.map fun _ => 1) (fun _ => []) 2
    ⟨1, [(1, ⟨0, 0⟩), (2, ⟨1, 1⟩), (3, ⟨2, 2⟩)]⟩
    ⟨2, [(1, ⟨5, 5⟩), (2, ⟨6, 6⟩), (3, ⟨7, 7⟩)]⟩).2.2.2.2 (by rw [hlen]; norm_num)
  exact ⟨by rw [hlen]; norm_num, h1.1, h1.2, h2⟩

abbrev Vec2 := Fin 2 → ℚ
abbrev Vec3 := Fin 3 → ℚ
abbrev Vec4 := Fin 4 → ℚ
abbrev Mat3 := Matrix (Fin 3) (Fin 3) ℚ
abbrev Mat34 := Matrix (Fin 3) (Fin 4) ℚ

/-- `cv::Mat::inv()` on an invertible matrix: the (unique) inverse, realised
computably through the adjugate. -/
def inv3 (m : Mat3) : Mat3 := (m.det)⁻¹ • m.adjugate

theorem inv3_mul_self (A : Mat3) (h : A.det ≠ 0) : inv3 A * A = 1 := by
  unfold inv3
  rw [Matrix.smul_mul, Matrix.adjugate_mul, smul_smul, inv_mul_cancel₀ h, one_smul]

theorem inv3_eq_of_mul_eq_one (A M : Mat3) (h1 : M * A = 1) : inv3 A = M := by
  have hd : A.det ≠ 0 := by
    intro h0
    have := congrArg Matrix.det h1
    rw [Matrix.det_mul, h0, mul_zero] at this
    simp at this
  have h2 : A * M = 1 := Matrix.mul_eq_one_comm.mp h1
  calc inv3 A = inv3 A * (A * M) := by rw [h2, mul_one]
    _ = inv3 A * A * M := by rw [mul_assoc]
    _ = M := by rw [inv3_mul_self A hd, one_mul]

/-- The header of a `cv::Mat` as the entry guards of `EpipolarGeometry` see
it, together with its (at most 3×3) payload. -/
structure CvMat where
  rows : Nat
  cols : Nat
  typ : Nat
  entry : Fin 3 → Fin 3 → ℚ

/-- OpenCV's `CV_64FC1` type code. -/
def CV_64FC1 : Nat := 6

/-- The injected result of `cv::SVD`/`cvSVD` on a 3×3 matrix: `u`, the vector
of singular values `w`, and `vt` with `F = u · diag w · vt`. -/
structure SvdResult where
  u : Mat3
  w : Vec3
  vt : Mat3

/-- `EpipolarGeometry::findEpipolesFromF`.  `e1`/`e2` are output arguments in
the source; the model passes their prior contents in and returns their final
contents.  On a matrix that is not 3×3 or not `CV_64FC1` the function returns
before touching them.  Otherwise, with `svd` the injected `cv::SVD` result,
the source copies column 2 of `svd.vt` into `e1` and column 2 of `svd.u`
into `e2`. -/
def findEpipolesFromF (fundamentalMatrix : CvMat) (svd : SvdResult)
    (e1 e2 : Vec3) : Vec3 × Vec3 :=
  if fundamentalMatrix.rows ≠ 3 ∨ fundamentalMatrix.cols ≠ 3 then
    (e1, e2)
  else if fundamentalMatrix.typ ≠ CV_64FC1 then
    (e1, e2)
  else
    (fun i => svd.vt i 2, fun i => svd.u i 2)

/-- C10: on a matrix of the wrong size or type, `findEpipolesFromF` modifies
neither epipole output. -/
theorem findEpipolesFromF_invalid_frame (fundamentalMatrix : CvMat)
    (svd : SvdResult) (e1 e2 : Vec3)
    (h : fundamentalMatrix.rows ≠ 3 ∨ fundamentalMatrix.cols ≠ 3 ∨
      fundamentalMatrix.typ ≠ CV_64FC1) :
    findEpipolesFromF fundamentalMatrix svd e1 e2 = (e1, e2) := by
  unfold findEpipolesFromF
  rcases h with h | h | h
  · rw [if_pos (Or.inl h)]
  · rw [if_pos (Or.inr h)]
  · by_cases hrc : fundamentalMatrix.rows ≠ 3 ∨ fundamentalMatrix.cols ≠ 3
    · rw [if_pos hrc]
    · rw [if_neg hrc, if_pos h]

/-- Concrete instance for `findEpipolesFromF_invalid_frame`: a 2×3
single-precision matrix leaves the prior epipole values in place. -/
theorem findEpipolesFromF_invalid_frame_witness :
    ((2 : Nat) ≠ 3 ∨ (3 : Nat) ≠ 3 ∨ (5 : Nat) ≠ CV_64FC1)
    ∧ findEpipolesFromF ⟨2, 3, 5, fun _ _ => 0⟩ ⟨1, ![1, 1, 1], 1⟩
        ![1, 2, 3] ![4, 5, 6] = (![1, 2, 3], ![4, 5, 6]) :=
  ⟨Or.inl (by norm_num),
    findEpipolesFromF_invalid_frame ⟨2, 3, 5, fun _ _ => 0⟩ ⟨1, ![1, 1, 1], 1⟩
      ![1, 2, 3] ![4, 5, 6] (Or.inl (by norm_num))⟩

/-- C3: refuted on the code.  The source stores `v = svd.vt` and copies
*column* 2 of it into `e1` — that is the last *row* of V, not the last
column of V.  At the concrete SVD `F = U·diag(2,1,0)·Vᵗ` below (U, V
orthogonal, singular values descending), the code yields `e1 = (0,1,0)`,
which is not a null vector of F, while the last column of V, `(1,0,0)`, is;
`e2` (column 2 of `svd.u`) does agree with the last column of U. -/
theorem findEpipolesFromF_bug :
    ((1 : Mat3) * !![2,0,0;0,1,0;0,0,0] * !![0,1,0;0,0,1;1,0,0] =
      !![0,2,0;0,0,1;0,0,0])
    ∧ ((1 : Mat3).transpose * 1 = 1)
    ∧ ((!![0,1,0;0,0,1;1,0,0] : Mat3).transpose * !![0,1,0;0,0,1;1,0,0] = 1)
    ∧ (findEpipolesFromF ⟨3, 3, CV_64FC1, !![0,2,0;0,0,1;0,0,0]⟩
        ⟨1, ![2,1,0], !![0,1,0;0,0,1;1,0,0]⟩ 0 0).1 = ![0,1,0]
    ∧ (fun i => ((!![0,1,0;0,0,1;1,0,0] : Mat3).transpose) i 2) = ![1,0,0]
    ∧ (![0,1,0] : Vec3) ≠ ![1,0,0]
    ∧ (!![0,2,0;0,0,1;0,0,0] : Mat3).mulVec ![0,1,0] ≠ 0
    ∧ (!![0,2,0;0,0,1;0,0,0] : Mat3).mulVec ![1,0,0] = 0
    ∧ (findEpipolesFromF ⟨3, 3, CV_64FC1, !![0,2,0;0,0,1;0,0,0]⟩
        ⟨1, ![2,1,0], !![0,1,0;0,0,1;1,0,0]⟩ 0 0).2 = ![0,0,1]
    ∧ (fun i => (1 : Mat3) i 2) = ![0,0,1] := by
  refine ⟨?_, ?_, ?_, ?_, ?_, ?_, ?_, ?_, ?_, ?_⟩
  · ext i j
    fin_cases i <;> fin_cases j <;>
      simp [Matrix.mul_apply, Fin.sum_univ_three, Matrix.vecHead, Matrix.vecTail]
  · simp
  · ext i j
    fin_cases i <;> fin_cases j <;>
      simp [Matrix.mul_apply, Fin.sum_univ_three, Matrix.one_apply,
        Matrix.transpose, Matrix.vecHead, Matrix.vecTail]
  · funext i
    fin_cases i <;> simp [findEpipolesFromF, CV_64FC1]
  · funext i
    fin_cases i <;> simp [Matrix.transpose, Matrix.vecHead, Matrix.vecTail]
  · intro h
    have := congrFun h 0
    simp at this
  · intro h
    have := congrFun h 0
    simp [Matrix.mulVec, Matrix.dotProduct, Fin.sum_univ_three] at this
  · funext i
    fin_cases i <;>
      simp [Matrix.mulVec, Matrix.dotProduct, Fin.sum_univ_three]
  · funext i
    fin_cases i <;> simp [findEpipolesFromF, CV_64FC1, Matrix.one_apply]
  · funext i
    fin_cases i <;> simp [Matrix.one_apply]

/-- The left 3×3 block `cv::Mat(p, Range(0,3), Range(0,3))` of a 3×4
projection matrix. -/
def leftBlock (p : Mat34) : Mat3 :=
  Matrix.of fun i j => p i (Fin.castSucc j)

/-- The fourth column `p.col(3)` of a 3×4 projection matrix. -/
def fourthCol (p : Mat34) : Vec3 :=
  fun i => p i 3

/-- `EpipolarGeometry::findRTFromP`: `r = -inv(P[0:3,0:3])`,
`t = r * P.col(3)`. -/
def findRTFromP (p : Mat34) : Mat3 × Vec3 :=
  let r := -(inv3 (leftBlock p))
  (r, r.mulVec (fourthCol p))

/-- C5: for a projection matrix with invertible left 3×3 block, the rotation
returned by `findRTFromP` is the *negated inverse* of that block (witnessed
against any two-sided inverse `M`), and the translation is that rotation
applied to the fourth column. -/
theorem findRTFromP_negated_inverse (p : Mat34) (M : Mat3)
    (h1 : M * leftBlock p = 1) :
    (findRTFromP p).1 = -M
    ∧ (findRTFromP p).2 = (-M).mulVec (fourthCol p) := by
  have hM : inv3 (leftBlock p) = M := inv3_eq_of_mul_eq_one (leftBlock p) M h1
  constructor
  · show -(inv3 (leftBlock p)) = -M
    rw [hM]
  · show (-(inv3 (leftBlock p))).mulVec (fourthCol p) = (-M).mulVec (fourthCol p)
    rw [hM]

/-- Concrete instance for `findRTFromP_negated_inverse`. -/
theorem findRTFromP_negated_inverse_witness :
    ((!![1/2,0,0;0,1,0;0,0,1] : Mat3) *
        leftBlock !![2,0,0,1;0,1,0,2;0,0,1,3] = 1)
    ∧ (findRTFromP !![2,0,0,1;0,1,0,2;0,0,1,3]).1 =
        -(!![1/2,0,0;0,1,0;0,0,1] : Mat3)
    ∧ (findRTFromP !![2,0,0,1;0,1,0,2;0,0,1,3]).2 =
        (-(!![1/2,0,0;0,1,0;0,0,1] : Mat3)).mulVec
          (fourthCol !![2,0,0,1;0,1,0,2;0,0,1,3]) := by
  have h1 : (!![1/2,0,0;0,1,0;0,0,1] : Mat3) *
      leftBlock !![2,0,0,1;0,1,0,2;0,0,1,3] = 1 := by
    ext i j
    fin_cases i <;> fin_cases j <;>
      simp [Matrix.mul_apply, Fin.sum_univ_three, leftBlock, Matrix.one_apply,
        Matrix.vecHead, Matrix.vecTail, Fin.castSucc, Fin.castAdd, Fin.castLE]
  have h := findRTFromP_negated_inverse !![2,0,0,1;0,1,0,2;0,0,1,3]
    !![1/2,0,0;0,1,0;0,0,1] h1
  exact ⟨h1, h.1, h.2⟩

/-- The intrinsics matrix `K` built by `findFFromCalibratedStereoCameras`. -/
def intrinsicsK (fx fy cx cy : ℚ) : Mat3 :=
  !![fx, 0, cx;
     0, fy, cy;
     0, 0, 1]

/-- The skew-symmetric (cross-product) matrix of a 3-vector. -/
def skew3 (v : Vec3) : Mat3 :=
  !![0, -v 2, v 1;
     v 2, 0, -v 0;
     -v 1, v 0, 0]

/-- `EpipolarGeometry::findFFromCalibratedStereoCameras`: closed-form
fundamental matrix from stereo intrinsics and baseline; `tx` is the
skew-symmetric baseline term, `R` the identity rotation, and the result is
`K.inv().t() * (tx * R) * K.inv()`. -/
def findFFromCalibratedStereoCameras (fx fy cx cy Tx Ty : ℚ) : Mat3 :=
  let R : Mat3 := 1
  let Bx := Tx / -fx
  let By := Ty / -fy
  let tx : Mat3 :=
    !![0, 0, By;
       0, 0, -Bx;
       -By, Bx, 0]
  let K := intrinsicsK fx fy cx cy
  let E := tx * R
  (inv3 K).transpose * E * inv3 K

/-- C6: the stereo fundamental matrix is `(K⁻¹)ᵗ · E · K⁻¹`, where `E` is the
skew-symmetric matrix of the baseline vector `(Tx/−fx, Ty/−fy, 0)` times the
identity rotation — stated against any two-sided inverse `M` of `K` (the
mathematical `K⁻¹`); the function consumes no correspondences and always
produces a matrix. -/
theorem findFFromCalibratedStereoCameras_spec (fx fy cx cy Tx Ty : ℚ)
    (M : Mat3) (h1 : M * intrinsicsK fx fy cx cy = 1) :
    findFFromCalibratedStereoCameras fx fy cx cy Tx Ty =
      M.transpose * (skew3 ![Tx / -fx, Ty / -fy, 0] * (1 : Mat3)) * M := by
  have hM : inv3 (intrinsicsK fx fy cx cy) = M :=
    inv3_eq_of_mul_eq_one (intrinsicsK fx fy cx cy) M h1
  have htx : (!![0, 0, Ty / -fy;
       0, 0, -(Tx / -fx);
       -(Ty / -fy), Tx / -fx, 0] : Mat3) = skew3 ![Tx / -fx, Ty / -fy, 0] := by
    ext i j
    fin_cases i <;> fin_cases j <;>
      simp [skew3, Matrix.vecHead, Matrix.vecTail]
  show (inv3 (intrinsicsK fx fy cx cy)).transpose *
      (!![0, 0, Ty / -fy;
          0, 0, -(Tx / -fx);
          -(Ty / -fy), Tx / -fx, 0] * (1 : Mat3)) *
      inv3 (intrinsicsK fx fy cx cy) = _
  rw [hM, htx]

/-- Concrete instance for `findFFromCalibratedStereoCameras_spec`:
`fx = 2, fy = 1, cx = cy = 0`. -/
theorem findFFromCalibratedStereoCameras_spec_witness :
    ((!![1/2,0,0;0,1,0;0,0,1] : Mat3) * intrinsicsK 2 1 0 0 = 1)
    ∧ findFFromCalibratedStereoCameras 2 1 0 0 3 5 =
        (!![1/2,0,0;0,1,0;0,0,1] : Mat3).transpose *
          (skew3 ![3 / -2, 5 / -1, 0] * (1 : Mat3)) *
          !![1/2,0,0;0,1,0;0,0,1] := by
  have h1 : (!![1/2,0,0;0,1,0;0,0,1] : Mat3) * intrinsicsK 2 1 0 0 = 1 := by
    ext i j
    fin_cases i <;> fin_cases j <;>
      simp [Matrix.mul_apply, Fin.sum_univ_three, intrinsicsK, Matrix.one_apply,
        Matrix.vecHead, Matrix.vecTail]
  exact ⟨h1, findFFromCalibratedStereoCameras_spec 2 1 0 0 3 5
    !![1/2,0,0;0,1,0;0,0,1] h1⟩

/-- `P0 = [I | 0]`, the reference camera built at the top of `findPFromF`. -/
def p0mat : Mat34 :=
  !![1, 0, 0, 0;
     0, 1, 0, 0;
     0, 0, 1, 0]

/-- The skew matrix `W` of `findPFromF`. -/
def skewW : Mat3 :=
  !![0, -1, 0;
     1, 0, 0;
     0, 0, 1]

/-- Assemble `P = [R | t]` (the entry-wise copies in the source). -/
def mkP (r : Mat3) (t : Vec3) : Mat34 :=
  Matrix.of fun i => ![r i 0, r i 1, r i 2, t i]

/-- The injected `cv::triangulatePoints` primitive: from two projection
matrices and one image point in each view, a homogeneous 4-vector. -/
abbrev TriPrim := Mat34 → Mat34 → Vec2 → Vec2 → Vec4

/-- One cheirality test of `findPFromF`: triangulate the sample pair with
`(P0, p)`, dehomogenize (`x4d /= x4d(3)`), reproject through both cameras
and fail exactly when either third coordinate is negative. -/
def cheiralityOK (tri : TriPrim) (x xp : Vec2) (p : Mat34) : Bool :=
  let x4d := tri p0mat p x xp
  let X : Vec4 := ![x4d 0 / x4d 3, x4d 1 / x4d 3, x4d 2 / x4d 3, x4d 3 / x4d 3]
  let xt1 := p0mat.mulVec X
  let xt2 := p.mulVec X
  if xt1 2 < 0 ∨ xt2 2 < 0 then false else true

/-- Case 1 of `findPFromF`: `P = [U·W·Vᵗ | e]`, `e = u.col(2)`. -/
def pCand1 (u v : Mat3) : Mat34 :=
  mkP (u * skewW * v.transpose) (fun i => u i 2)

/-- Case 2 of `findPFromF`: `P = [U·W·Vᵗ | -e]`. -/
def pCand2 (u v : Mat3) : Mat34 :=
  mkP (u * skewW * v.transpose) (fun i => -(u i 2))

/-- Case 3 of `findPFromF`: `P = [U·Wᵗ·Vᵗ | e]`. -/
def pCand3 (u v : Mat3) : Mat34 :=
  mkP (u * skewW.transpose * v.transpose) (fun i => u i 2)

/-- Case 4 of `findPFromF`: `P = [U·Wᵗ·Vᵗ | -e]`. -/
def pCand4 (u v : Mat3) : Mat34 :=
  mkP (u * skewW.transpose * v.transpose) (fun i => -(u i 2))

/-- The four candidates in the fixed evaluation order of the source. -/
def pCandidates (u v : Mat3) : List Mat34 :=
  [pCand1 u v, pCand2 u v, pCand3 u v, pCand4 u v]

/-- `EpipolarGeometry::findPFromF`.  `u` and `v` are the injected `cvSVD`
factors after the source's own transpositions (`u = U`, `v = V` with
`F = U·S·Vᵗ`); `tri` is the injected `cv::triangulatePoints`; `x`/`xp` are
the single sample correspondence `x1.col(0)`/`x2.col(0)`.  The wrong-size /
wrong-type guards return an empty matrix (`none`). -/
def findPFromF (fundamentalMatrix : CvMat) (u v : Mat3) (tri : TriPrim)
    (x xp : Vec2) : Option Mat34 :=
  if fundamentalMatrix.rows ≠ 3 ∨ fundamentalMatrix.cols ≠ 3 then none
  else if fundamentalMatrix.typ ≠ CV_64FC1 then none
  else some
    (if cheiralityOK tri x xp (pCand1 u v) then pCand1 u v
     else if cheiralityOK tri x xp (pCand2 u v) then pCand2 u v
     else if cheiralityOK tri x xp (pCand3 u v) then pCand3 u v
     else pCand4 u v)

/-- C4: on a valid 3×3 double-precision input, `findPFromF` returns the first
candidate, in the order `[U·W·Vᵗ|+e], [U·W·Vᵗ|−e], [U·Wᵗ·Vᵗ|+e],
[U·Wᵗ·Vᵗ|−e]`, that passes the non-negative-depth test in both cameras, and
falls back to the fourth (last-tested) candidate when none passes. -/
theorem findPFromF_candidate_order (fundamentalMatrix : CvMat) (u v : Mat3)
    (tri : TriPrim) (x xp : Vec2)
    (hr : fundamentalMatrix.rows = 3) (hc : fundamentalMatrix.cols = 3)
    (ht : fundamentalMatrix.typ = CV_64FC1) :
    findPFromF fundamentalMatrix u v tri x xp =
      some (((pCandidates u v).find? (cheiralityOK tri x xp)).getD
        (pCand4 u v)) := by
  rw [findPFromF, if_neg (by simp [hr, hc]), if_neg (by simp [ht])]
  simp only [pCandidates]
  cases h1 : cheiralityOK tri x xp (pCand1 u v) <;>
    cases h2 : cheiralityOK tri x xp (pCand2 u v) <;>
      cases h3 : cheiralityOK tri x xp (pCand3 u v) <;>
        cases h4 : cheiralityOK tri x xp (pCand4 u v) <;>
          simp [List.find?, h1, h2, h3, h4]

/-- Concrete instance for `findPFromF_candidate_order`: with identity SVD
factors and a triangulation primitive returning `(1,1,1,1)`, case 1 already
passes the cheirality test and is selected. -/
theorem findPFromF_candidate_order_witness :
    findPFromF ⟨3, 3, CV_64FC1, fun _ _ => 0⟩ 1 1 (fun _ _ _ _ => ![1, 1, 1, 1])
        ![0, 0] ![0, 0] =
      some (((pCandidates 1 1).find?
        (cheiralityOK (fun _ _ _ _ => ![1, 1, 1, 1]) ![0, 0] ![0, 0])).getD
          (pCand4 1 1))
    ∧ findPFromF ⟨3, 3, CV_64FC1, fun _ _ => 0⟩ 1 1 (fun _ _ _ _ => ![1, 1, 1, 1])
        ![0, 0] ![0, 0] = some (pCand1 1 1) := by
  have h := findPFromF_candidate_order ⟨3, 3, CV_64FC1, fun _ _ => 0⟩ 1 1
    (fun _ _ _ _ => ![1, 1, 1, 1]) ![0, 0] ![0, 0] rfl rfl rfl
  have hok : cheiralityOK (fun _ _ _ _ => ![1, 1, 1, 1]) ![0, 0] ![0, 0]
      (pCand1 1 1) = true := by
    simp [cheiralityOK, pCand1, mkP, p0mat, skewW, Matrix.mulVec,
      Matrix.dotProduct, Fin.sum_univ_four, Matrix.vecHead, Matrix.vecTail]
  refine ⟨h, ?_⟩
  rw [h]
  simp [pCandidates, List.find?, hok]

abbrev Mat43 := Matrix (Fin 4) (Fin 3) ℚ

/-- `cv::Point3d`: a homogeneous image point `(u, v, 1)`. -/
structure Point3d where
  x : ℚ
  y : ℚ
  z : ℚ

/-- The injected `cv::solve(A, B, X, DECOMP_SVD)` primitive: a least-squares
solver for the 4×3 system assembled by the triangulation routines. -/
abbrev SolvePrim := Mat43 → (Fin 4 → ℚ) → Vec3

/-- `EpipolarGeometry::linearLSTriangulation`: assemble the 4×3 system
`A·X = B` from the two projection equations and hand it to the injected
least-squares solver. -/
def linearLSTriangulation (solve : SolvePrim) (u : Point3d) (P : Mat34)
    (u1 : Point3d) (P1 : Mat34) : Vec3 :=
  let A : Mat43 :=
    !![u.x * P 2 0 - P 0 0,    u.x * P 2 1 - P 0 1,    u.x * P 2 2 - P 0 2;
       u.y * P 2 0 - P 1 0,    u.y * P 2 1 - P 1 1,    u.y * P 2 2 - P 1 2;
       u1.x * P1 2 0 - P1 0 0, u1.x * P1 2 1 - P1 0 1, u1.x * P1 2 2 - P1 0 2;
       u1.y * P1 2 0 - P1 1 0, u1.y * P1 2 1 - P1 1 1, u1.y * P1 2 2 - P1 1 2]
  let B : Fin 4 → ℚ :=
    ![-(u.x * P 2 3 - P 0 3),
      -(u.y * P 2 3 - P 1 3),
      -(u1.x * P1 2 3 - P1 0 3),
      -(u1.y * P1 2 3 - P1 1 3)]
  solve A B

/-- The convergence epsilon of `iterativeLinearLSTriangulation` (`1e-4`). -/
def EPSILON : ℚ := 1 / 10000

/-- The loop state of `iterativeLinearLSTriangulation`: the current estimate
`X` and the two per-view weights. -/
structure IterState where
  X : Vec4
  wi : ℚ
  wi1 : ℚ

/-- The per-view homogeneous depth component `P_row3 · X`
(`cv::Mat(P).row(2) * cv::Mat(X)` in the source). -/
def p2xOf (P : Mat34) (X : Vec4) : ℚ :=
  P 2 0 * X 0 + P 2 1 * X 1 + P 2 2 * X 2 + P 2 3 * X 3

/-- The breaking point of the reweighting loop: both weight deltas are within
`EPSILON` of the freshly computed depth components. -/
def breakCond (P P1 : Mat34) (s : IterState) : Prop :=
  |s.wi - p2xOf P s.X| ≤ EPSILON ∧ |s.wi1 - p2xOf P1 s.X| ≤ EPSILON

instance (P P1 : Mat34) (s : IterState) : Decidable (breakCond P P1 s) := by
  unfold breakCond
  infer_instance

/-- One reweighting pass (executed only when the breaking point was not
reached): update the weights to the current depth components, divide each
equation of the linear system by its view's weight, re-solve, and write the
first three components back into `X` (`X(3)` is never written — the
source's `X_(3) = 1.0` writes to the 3×1 temporary). -/
def iterUpdate (solve : SolvePrim) (u : Point3d) (P : Mat34) (u1 : Point3d)
    (P1 : Mat34) (s : IterState) : IterState :=
  let wi := p2xOf P s.X
  let wi1 := p2xOf P1 s.X
  let A : Mat43 :=
    !![(u.x * P 2 0 - P 0 0) / wi,      (u.x * P 2 1 - P 0 1) / wi,      (u.x * P 2 2 - P 0 2) / wi;
       (u.y * P 2 0 - P 1 0) / wi,      (u.y * P 2 1 - P 1 1) / wi,      (u.y * P 2 2 - P 1 2) / wi;
       (u1.x * P1 2 0 - P1 0 0) / wi1,  (u1.x * P1 2 1 - P1 0 1) / wi1,  (u1.x * P1 2 2 - P1 0 2) / wi1;
       (u1.y * P1 2 0 - P1 1 0) / wi1,  (u1.y * P1 2 1 - P1 1 1) / wi1,  (u1.y * P1 2 2 - P1 1 2) / wi1]
  let B : Fin 4 → ℚ :=
    ![-(u.x * P 2 3 - P 0 3) / wi,
      -(u.y * P 2 3 - P 1 3) / wi,
      -(u1.x * P1 2 3 - P1 0 3) / wi1,
      -(u1.y * P1 2 3 - P1 1 3) / wi1]
  let Xs := solve A B
  ⟨![Xs 0, Xs 1, Xs 2, s.X 3], wi, wi1⟩

/-- The `for (int i=0; i<10; i++)` loop with its breaking point, as a
fuel-indexed recursion: stop when the fuel is exhausted or the breaking
point is reached, otherwise run one reweighting pass. -/
def iterLoop (P P1 : Mat34) (upd : IterState → IterState) :
    Nat → IterState → IterState
  | 0, s => s
  | n + 1, s => if breakCond P P1 s then s else iterLoop P P1 upd n (upd s)

/-- The state entering the loop: `X = (X_(0), X_(1), X_(2), ·)` from the
linear triangulation, `wi = wi1 = 1`.  `X(3)` is *uninitialized* in the
source (the `X_(3) = 1.0` statements write out of range into the 3×1
temporary), so the model takes its initial contents as the explicit
parameter `x3uninit`. -/
def iterInit (solve : SolvePrim) (x3uninit : ℚ) (u : Point3d) (P : Mat34)
    (u1 : Point3d) (P1 : Mat34) : IterState :=
  let Xs := linearLSTriangulation solve u P u1 P1
  ⟨![Xs 0, Xs 1, Xs 2, x3uninit], 1, 1⟩

/-- `EpipolarGeometry::iterativeLinearLSTriangulation`. -/
def iterativeLinearLSTriangulation (solve : SolvePrim) (x3uninit : ℚ)
    (u : Point3d) (P : Mat34) (u1 : Point3d) (P1 : Mat34) : Vec4 :=
  (iterLoop P P1 (iterUpdate solve u P u1 P1) 10
    (iterInit solve x3uninit u P u1 P1)).X

/-- Characterization of the fuel-indexed loop: it performs the first `n`
update passes, where `n` is at most the fuel, no earlier state satisfies
the breaking point, and if the loop stopped before exhausting the fuel the
final state does. -/
theorem iterLoop_spec (P P1 : Mat34) (upd : IterState → IterState) :
    ∀ (fuel : Nat) (s : IterState), ∃ n, n ≤ fuel ∧
      iterLoop P P1 upd fuel s = upd^[n] s
      ∧ (∀ m, m < n → ¬ breakCond P P1 (upd^[m] s))
      ∧ (n < fuel → breakCond P P1 (upd^[n] s)) := by
  intro fuel
  induction fuel with
  | zero =>
      intro s
      exact ⟨0, Nat.le_refl 0, rfl, fun m hm => absurd hm (Nat.not_lt_zero m),
        fun h => absurd h (Nat.lt_irrefl 0)⟩
  | succ f ih =>
      intro s
      by_cases hb : breakCond P P1 s
      · exact ⟨0, Nat.zero_le _, by simp [iterLoop, hb],
          fun m hm => absurd hm (Nat.not_lt_zero m), fun _ => by simpa using hb⟩
      · obtain ⟨n, hle, heq, hpre, hstop⟩ := ih (upd s)
        refine ⟨n + 1, by omega, ?_, ?_, ?_⟩
        · rw [iterLoop, if_neg hb, heq, Function.iterate_succ_apply]
        · intro m hm
          cases m with
          | zero => simpa using hb
          | succ j =>
              rw [Function.iterate_succ_apply]
              exact hpre j (by omega)
        · intro hlt
          rw [Function.iterate_succ_apply]
          exact hstop (by omega)

/-- C7: `iterativeLinearLSTriangulation` performs at most 10 reweighting
passes, and it stops before a pass (without re-solving) exactly at the first
state whose two weight deltas `|wi − P_row3·X|` and `|wi1 − P1_row3·X|` are
both within `EPSILON = 1e-4` — every earlier state fails the breaking point,
and if fewer than 10 passes ran, the final state satisfies it. -/
theorem iterativeLinearLSTriangulation_terminates (solve : SolvePrim)
    (x3uninit : ℚ) (u : Point3d) (P : Mat34) (u1 : Point3d) (P1 : Mat34) :
    ∃ n, n ≤ 10 ∧
      iterativeLinearLSTriangulation solve x3uninit u P u1 P1 =
        ((iterUpdate solve u P u1 P1)^[n]
          (iterInit solve x3uninit u P u1 P1)).X
      ∧ (∀ m, m < n → ¬ breakCond P P1 ((iterUpdate solve u P u1 P1)^[m]
          (iterInit solve x3uninit u P u1 P1)))
      ∧ (n < 10 → breakCond P P1 ((iterUpdate solve u P u1 P1)^[n]
          (iterInit solve x3uninit u P u1 P1))) := by
  obtain ⟨n, hle, heq, hpre, hstop⟩ :=
    iterLoop_spec P P1 (iterUpdate solve u P u1 P1) 10
      (iterInit solve x3uninit u P u1 P1)
  exact ⟨n, hle, congrArg IterState.X heq, hpre, hstop⟩

/-- The squared per-point reprojection residual recorded by
`EpipolarGeometry::triangulatePoints` for one matched pair: triangulate via
the iterative method, reproject through `P1` (`xPt_img = P1 * X`,
dehomogenized), and take the distance to `pt_set1[i]` — the source's
`norm(xPt_img_ - pt_set1[i])`.  The model records the *square* of the
Euclidean norm, which determines it (the residual is its nonnegative square
root). -/
def reprojErrSq (solve : SolvePrim) (x3uninit : ℚ) (P P1 : Mat34)
    (p1 p2 : ℚ × ℚ) : ℚ :=
  let u : Point3d := ⟨p1.1, p1.2, 1⟩
  let u1 : Point3d := ⟨p2.1, p2.2, 1⟩
  let X := iterativeLinearLSTriangulation solve x3uninit u P u1 P1
  let xPt_img := P1.mulVec X
  let xPt : ℚ × ℚ := (xPt_img 0 / xPt_img 2, xPt_img 1 / xPt_img 2)
  (xPt.1 - p1.1) ^ 2 + (xPt.2 - p1.2) ^ 2

/-- The squared per-point reprojection residual as the specification states
it.  Modelled from the spec: identical to `reprojErrSq` except that the
dehomogenized reprojection into view B is compared with the *view-B*
observation `pt_set2[i]`. -/
def reprojErrSqSpec (solve : SolvePrim) (x3uninit : ℚ) (P P1 : Mat34)
    (p1 p2 : ℚ × ℚ) : ℚ :=
  let u : Point3d := ⟨p1.1, p1.2, 1⟩
  let u1 : Point3d := ⟨p2.1, p2.2, 1⟩
  let X := iterativeLinearLSTriangulation solve x3uninit u P u1 P1
  let xPt_img := P1.mulVec X
  let xPt : ℚ × ℚ := (xPt_img 0 / xPt_img 2, xPt_img 1 / xPt_img 2)
  (xPt.1 - p2.1) ^ 2 + (xPt.2 - p2.2) ^ 2

/-- `EpipolarGeometry::triangulatePoints`: per matched pair, triangulate via
the iterative method, store the Euclidean point `(X(0), X(1), X(2))` in the
cloud and record the per-point reprojection residual (squared here, see
`reprojErrSq`).  The source finally returns `cv::mean` of the recorded
residuals. -/
def triangulatePoints (solve : SolvePrim) (x3uninit : ℚ)
    (pt_set1 pt_set2 : List (ℚ × ℚ)) (P P1 : Mat34) :
    List Vec3 × List ℚ :=
  let results := (pt_set1.zip pt_set2).map fun pr =>
    let u : Point3d := ⟨pr.1.1, pr.1.2, 1⟩
    let u1 : Point3d := ⟨pr.2.1, pr.2.2, 1⟩
    let X := iterativeLinearLSTriangulation solve x3uninit u P u1 P1
    ((![X 0, X 1, X 2] : Vec3), reprojErrSq solve x3uninit P P1 pr.1 pr.2)
  (results.map Prod.fst, results.map Prod.snd)

/-- C2: refuted on the code.  `triangulatePoints` reprojects the triangulated
point into view B (`xPt_img = P1 * X`) but measures the residual against
`pt_set1[i]`, the view-A observation, not against the view-B observation
`pt_set2[i]`.  Concretely, with both cameras at `P0 = [I|0]`, a solver that
returns `X = (3,4,1)` (and uninitialized `X(3) = 0`), `pt_set1 = [(0,0)]`
and `pt_set2 = [(10,0)]`: the reprojection dehomogenizes to `(3,4)`, the
code records squared residual `25` (distance 5 to the view-A point), while
the claim's residual against the view-B point is squared `65` (distance
√65). -/
theorem triangulatePoints_reprojection_bug :
    (triangulatePoints (fun _ _ => ![3, 4, 1]) 0 [(0, 0)] [(10, 0)]
        p0mat p0mat).2 =
      [reprojErrSq (fun _ _ => ![3, 4, 1]) 0 p0mat p0mat (0, 0) (10, 0)]
    ∧ reprojErrSq (fun _ _ => ![3, 4, 1]) 0 p0mat p0mat (0, 0) (10, 0) = 25
    ∧ reprojErrSqSpec (fun _ _ => ![3, 4, 1]) 0 p0mat p0mat (0, 0) (10, 0) = 65
    ∧ (25 : ℚ) ≠ 65 := by
  have hbreak : breakCond p0mat p0mat ⟨![3, 4, 1, 0], 1, 1⟩ := by
    constructor <;>
      · simp only [p2xOf, EPSILON, p0mat]
        norm_num [Matrix.vecHead, Matrix.vecTail]
  have hX : iterativeLinearLSTriangulation (fun _ _ => ![3, 4, 1]) 0
      ⟨0, 0, 1⟩ p0mat ⟨10, 0, 1⟩ p0mat = ![3, 4, 1, 0] := by
    have hinit : iterInit (fun _ _ => ![3, 4, 1]) 0 ⟨0, 0, 1⟩ p0mat
        ⟨10, 0, 1⟩ p0mat = ⟨![3, 4, 1, 0], 1, 1⟩ := by
      unfold iterInit linearLSTriangulation
      rfl
    unfold iterativeLinearLSTriangulation
    rw [hinit, show (10 : ℕ) = 9 + 1 from rfl]
    simp only [iterLoop]
    rw [if_pos hbreak]
  have hrepr : reprojErrSq (fun _ _ => ![3, 4, 1]) 0 p0mat p0mat
      (0, 0) (10, 0) = 25 := by
    simp only [reprojErrSq]
    rw [hX]
    simp only [p0mat, Matrix.mulVec, Matrix.dotProduct, Fin.sum_univ_four]
    norm_num [Matrix.vecHead, Matrix.vecTail]
  have hspec : reprojErrSqSpec (fun _ _ => ![3, 4, 1]) 0 p0mat p0mat
      (0, 0) (10, 0) = 65 := by
    simp only [reprojErrSqSpec]
    rw [hX]
    simp only [p0mat, Matrix.mulVec, Matrix.dotProduct, Fin.sum_univ_four]
    norm_num [Matrix.vecHead, Matrix.vecTail]
  exact ⟨rfl, hrepr, hspec, by norm_num⟩
